import Mathlib

set_option maxRecDepth 8000

/-!
Verification development for the WID field-extraction script
(`wid_script_SAP.py`).  The script's text processing is shallowly embedded:
text is `List Char`, byte buffers are `List Nat`, Python dicts are
insertion-ordered association lists, and the handful of regular expressions
the script uses (all built from literals and single-character-class
repetitions) are given exact leftmost/backtracking match semantics by a
small executable engine.  External collaborators (the `zipfile` directory
parse, the `xml.etree` parser, the codecs invoked by `bytes.decode`, the
pandas stable multi-key sort) are modelled by executable Lean functions
that implement their documented behaviour on the inputs the script feeds
them.  All data handled by the script is ASCII, so character classes such
as Python's `\s`, `\w` and `str.isalpha` are modelled on the ASCII range.
-/

namespace WidSAP

/-- Text is modelled as a list of characters. -/
abbrev Str := List Char

/-- Python's regex class `\s` (ASCII range): space, TAB, LF, VT, FF, CR. -/
def isWsChar (c : Char) : Bool :=
  c.toNat = 32 || c.toNat = 9 || c.toNat = 10 || c.toNat = 11 || c.toNat = 12 || c.toNat = 13

/-- Regex class `\d` / `[0-9]`. -/
def isDigitChar (c : Char) : Bool :=
  48 ≤ c.toNat && c.toNat ≤ 57

/-- `[A-Z]`. -/
def isUpperChar (c : Char) : Bool :=
  65 ≤ c.toNat && c.toNat ≤ 90

/-- `[a-z]`. -/
def isLowerChar (c : Char) : Bool :=
  97 ≤ c.toNat && c.toNat ≤ 122

/-- `[A-Za-z]` (Python `str.isalpha` on the script's ASCII data). -/
def isAlphaChar (c : Char) : Bool :=
  isUpperChar c || isLowerChar c

/-- Regex class `\w`: `[A-Za-z0-9_]`. -/
def isWordChar (c : Char) : Bool :=
  isAlphaChar c || isDigitChar c || c.toNat = 95

/-- `["']`, the quote class used by the attribute patterns. -/
def isQuoteChar (c : Char) : Bool :=
  c = '"' || c = '\''

/-- `[^>]`, used inside the element-scanning patterns. -/
def notGtChar (c : Char) : Bool :=
  !(c = '>')

/-! ### Python dicts as insertion-ordered association lists

`d[k] = v` updates an existing key in place (keeping its position) or
appends a fresh binding; `d.setdefault(k, v)` only appends when the key is
absent; iteration order is insertion order. -/

/-- `k in d`. -/
def dictMem (d : List (Str × α)) (k : Str) : Bool :=
  d.any (fun p => p.1 == k)

/-- `d[k] = v`. -/
def dictInsert (d : List (Str × α)) (k : Str) (v : α) : List (Str × α) :=
  if dictMem d k then d.map (fun p => if p.1 == k then (k, v) else p)
  else d ++ [(k, v)]

/-- `d.setdefault(k, v)`. -/
def dictSetdefault (d : List (Str × α)) (k : Str) (v : α) : List (Str × α) :=
  if dictMem d k then d else d ++ [(k, v)]

/-- `d.get(k)`. -/
def dictGet (d : List (Str × α)) (k : Str) : Option α :=
  (d.find? (fun p => p.1 == k)).map (fun p => p.2)

/-- First `some` produced by `f` over a list, in order. -/
def firstSome (xs : List α) (f : α → Option β) : Option β :=
  match xs with
  | [] => none
  | a :: rest =>
    match f a with
    | some b => some b
    | none => firstSome rest f

/-! ### Regular-expression engine

Every pattern in the script is a sequence of literal characters and
greedy/lazy repetitions of single-character classes, so a match at a given
position is determined by the per-item consumption lengths.  The engine
enumerates those lengths in the exact priority order of a backtracking
regex engine (greedy: longest first; lazy: shortest first), and
`finditerAux` scans positions left to right, continuing after each
non-overlapping match — Python's `re.finditer` semantics. -/

inductive RItem where
  | lit (c : Char)
  | cls (p : Char → Bool)
  | star (p : Char → Bool)
  | starL (p : Char → Bool)
  | plus (p : Char → Bool)
  | plusL (p : Char → Bool)

/-- Length of the maximal prefix satisfying `p`. -/
def maxRun (p : Char → Bool) : Str → Nat
  | [] => 0
  | c :: s => if p c then maxRun p s + 1 else 0

/-- Candidate consumption lengths for one item, in backtracking priority order. -/
def candLens : RItem → Str → List Nat
  | RItem.lit c, s =>
    match s with
    | [] => []
    | d :: _ => if d = c then [1] else []
  | RItem.cls p, s =>
    match s with
    | [] => []
    | d :: _ => if p d then [1] else []
  | RItem.star p, s => (List.range (maxRun p s + 1)).reverse
  | RItem.starL p, s => List.range (maxRun p s + 1)
  | RItem.plus p, s => ((List.range (maxRun p s)).map (fun n => n + 1)).reverse
  | RItem.plusL p, s => (List.range (maxRun p s)).map (fun n => n + 1)

/-- A pattern is a list of items, each tagged with the capture group
(0 = not captured) it belongs to. -/
abbrev RPattern := List (Nat × RItem)

/-- Backtracking match of a whole pattern at the head of `s`; returns the
consumed slice of each item (with its group tag), first success in
priority order. -/
def matchItems : RPattern → Str → Option (List (Nat × Str))
  | [], _ => some []
  | (g, it) :: its, s =>
    firstSome (candLens it s) (fun n =>
      (matchItems its (s.drop n)).map (fun tl => (g, s.take n) :: tl))

/-- Text captured by group `g` in a match result. -/
def groupOf (res : List (Nat × Str)) (g : Nat) : Str :=
  ((res.filter (fun p => p.1 = g)).map (fun p => p.2)).flatten

/-- Total number of characters consumed by a match. -/
def matchLen (res : List (Nat × Str)) : Nat :=
  (res.map (fun p => p.2.length)).sum

/-- Scanning step for `finditerAux`; every step consumes at least one
character, so fuel equal to the text length is enough.  (None of the
script's patterns can match the empty string; the zero-length branch only
exists for totality.) -/
def finditerFuel (pat : RPattern) : Nat → Str → List (List (Nat × Str))
  | 0, _ => []
  | _, [] => []
  | fuel + 1, c :: s =>
    match matchItems pat (c :: s) with
    | some res =>
      if matchLen res = 0 then finditerFuel pat fuel s
      else res :: finditerFuel pat fuel (List.drop (matchLen res - 1) s)
    | none => finditerFuel pat fuel s

/-- `re.finditer`: leftmost, non-overlapping matches. -/
def finditerAux (pat : RPattern) (s : Str) : List (List (Nat × Str)) :=
  finditerFuel pat s.length s

/-- Case-insensitive single character (the `re.IGNORECASE` reading of a
letter literal). -/
def ci (c : Char) : RItem :=
  RItem.cls (fun d => d.toLower = c.toLower)

/-- A case-insensitive literal word, all items tagged with group `g`. -/
def ciWord (g : Nat) (w : Str) : RPattern :=
  w.map (fun c => (g, ci c))

/-! ### The script's patterns -/

/-- `([^=\n]+?)\s*=\s*([^,;\n]+)[,;\s]+(DP\d+\.DO\w+)` with `IGNORECASE`
(pass 1 of `extract_direct_mappings`). -/
def pat1 : RPattern :=
  [(1, RItem.plusL (fun c => !(c = '=' || c = '\n'))),
   (0, RItem.star isWsChar), (0, RItem.lit '='), (0, RItem.star isWsChar),
   (2, RItem.plus (fun c => !(c = ',' || c = ';' || c = '\n'))),
   (0, RItem.plus (fun c => c = ',' || c = ';' || isWsChar c)),
   (3, ci 'D'), (3, ci 'P'), (3, RItem.plus isDigitChar), (3, RItem.lit '.'),
   (3, ci 'D'), (3, ci 'O'), (3, RItem.plus isWordChar)]

/-- `(DP\d+\.DO\w+)` with `IGNORECASE` (pass 2 of `extract_direct_mappings`). -/
def pat2 : RPattern :=
  [(1, ci 'D'), (1, ci 'P'), (1, RItem.plus isDigitChar), (1, RItem.lit '.'),
   (1, ci 'D'), (1, ci 'O'), (1, RItem.plus isWordChar)]

/-- `<attr>=["']([^"']+)["']` with `IGNORECASE` (`extract_dp_formulas`). -/
def attrPat (w : Str) : RPattern :=
  ciWord 0 w ++
  [(0, RItem.lit '='), (0, RItem.cls isQuoteChar),
   (1, RItem.plus (fun c => !(isQuoteChar c))),
   (0, RItem.cls isQuoteChar)]

def formulaAttrPat : RPattern := attrPat "formula".data
def expressionAttrPat : RPattern := attrPat "expression".data
def calculationAttrPat : RPattern := attrPat "calculation".data

/-- `<QueryCalculation[^>]+alias=["']([^"']+)["'][^>]+calculation=["']([^"']+)["']`
with `IGNORECASE|DOTALL`. -/
def qcPat : RPattern :=
  (0, RItem.lit '<') :: ciWord 0 "QueryCalculation".data ++
  [(0, RItem.plus notGtChar)] ++ ciWord 0 "alias".data ++
  [(0, RItem.lit '='), (0, RItem.cls isQuoteChar),
   (1, RItem.plus (fun c => !(isQuoteChar c))),
   (0, RItem.cls isQuoteChar), (0, RItem.plus notGtChar)] ++
  ciWord 0 "calculation".data ++
  [(0, RItem.lit '='), (0, RItem.cls isQuoteChar),
   (2, RItem.plus (fun c => !(isQuoteChar c))),
   (0, RItem.cls isQuoteChar)]

/-- `<CalculatedField[^>]+name=["']([^"']+)["'][^>]*>([^<]+)` with
`IGNORECASE|DOTALL` (`extract_calculated_fields`). -/
def cfPat : RPattern :=
  (0, RItem.lit '<') :: ciWord 0 "CalculatedField".data ++
  [(0, RItem.plus notGtChar)] ++ ciWord 0 "name".data ++
  [(0, RItem.lit '='), (0, RItem.cls isQuoteChar),
   (1, RItem.plus (fun c => !(isQuoteChar c))),
   (0, RItem.cls isQuoteChar), (0, RItem.star notGtChar), (0, RItem.lit '>'),
   (2, RItem.plus (fun c => !(c = '<')))]

/-- `Variable\s+([^=\s]+)\s*=\s*([^;]+);` with `IGNORECASE`
(`extract_report_variables`). -/
def varPat : RPattern :=
  ciWord 0 "Variable".data ++
  [(0, RItem.plus isWsChar),
   (1, RItem.plus (fun c => !(c = '=' || isWsChar c))),
   (0, RItem.star isWsChar), (0, RItem.lit '='), (0, RItem.star isWsChar),
   (2, RItem.plus (fun c => !(c = ';'))),
   (0, RItem.lit ';')]

/-- `(<[^>]*QuerySpec[^>]*>.*?</[^>]*QuerySpec[^>]*>)` with
`DOTALL|IGNORECASE` (`extract_xml`). -/
def xmlPat : RPattern :=
  (1, RItem.lit '<') :: (1, RItem.star notGtChar) :: ciWord 1 "QuerySpec".data ++
  [(1, RItem.star notGtChar), (1, RItem.lit '>'),
   (1, RItem.starL (fun _ => true)),
   (1, RItem.lit '<'), (1, RItem.lit '/'), (1, RItem.star notGtChar)] ++
  ciWord 1 "QuerySpec".data ++
  [(1, RItem.star notGtChar), (1, RItem.lit '>')]

/-- `(DP\d+)` — case-sensitive, used on archive entry names in
`extract_data_provider_names`. -/
def dpNumPat : RPattern :=
  [(1, RItem.lit 'D'), (1, RItem.lit 'P'), (1, RItem.plus isDigitChar)]

/-! ### Byte-to-text decoding

Models CPython's builtin codecs as invoked by the script:
`raw.decode(enc, errors='ignore')` drops the maximal subpart of each
invalid sequence and never raises.  The step functions are parameterised
by what an error emits, so both the code's behaviour (`errors='ignore'`,
`err = []`) and the spec's claimed behaviour (replacement, with U+FFFD,
`err = [0xFFFD]`) are instances of the same decoder. -/

/-- Is `b` a UTF-8 continuation byte? -/
def contOk (b : Nat) : Bool :=
  128 ≤ b && b ≤ 191

/-- One UTF-8 decoding step at lead byte `b` with following bytes `rest`:
returns how many bytes of `rest` belong to this sequence and the emitted
code points (`err` on a malformed/truncated maximal subpart). -/
def utf8Step (err : List Nat) (b : Nat) (rest : List Nat) : Nat × List Nat :=
  if b < 128 then (0, [b])
  else if b < 194 then (0, err)
  else if b ≤ 223 then
    match rest with
    | b2 :: _ => if contOk b2 then (1, [(b - 192) * 64 + (b2 - 128)]) else (0, err)
    | [] => (0, err)
  else if b ≤ 239 then
    let lo2 := if b = 224 then 160 else 128
    let hi2 := if b = 237 then 159 else 191
    match rest with
    | b2 :: b3 :: _ =>
      if lo2 ≤ b2 && b2 ≤ hi2 then
        if contOk b3 then (2, [(b - 224) * 4096 + (b2 - 128) * 64 + (b3 - 128)])
        else (1, err)
      else (0, err)
    | [b2] => if lo2 ≤ b2 && b2 ≤ hi2 then (1, err) else (0, err)
    | [] => (0, err)
  else if b ≤ 244 then
    let lo2 := if b = 240 then 144 else 128
    let hi2 := if b = 244 then 143 else 191
    match rest with
    | b2 :: b3 :: b4 :: _ =>
      if lo2 ≤ b2 && b2 ≤ hi2 then
        if contOk b3 then
          if contOk b4 then
            (3, [(b - 240) * 262144 + (b2 - 128) * 4096 + (b3 - 128) * 64 + (b4 - 128)])
          else (2, err)
        else (1, err)
      else (0, err)
    | [b2, b3] =>
      if lo2 ≤ b2 && b2 ≤ hi2 then (if contOk b3 then (2, err) else (1, err))
      else (0, err)
    | [b2] => if lo2 ≤ b2 && b2 ≤ hi2 then (1, err) else (0, err)
    | [] => (0, err)
  else (0, err)

/-- UTF-8 decode with error emission `err`; every step consumes the lead
byte, so fuel equal to the buffer length is enough. -/
def utf8DecodeFuel (err : List Nat) : Nat → List Nat → List Nat
  | 0, _ => []
  | _, [] => []
  | fuel + 1, b :: rest =>
    let st := utf8Step err b rest
    st.2 ++ utf8DecodeFuel err fuel (rest.drop st.1)

/-- UTF-8 decode of a whole buffer with error emission `err`. -/
def utf8Decode (err : List Nat) (l : List Nat) : List Nat :=
  utf8DecodeFuel err l.length l

/-- UTF-16 little-endian decode with error emission `err` (unpaired
surrogates and a trailing odd byte are errors); fuel-driven as above. -/
def utf16leDecodeFuel (err : Str) : Nat → List Nat → Str
  | 0, _ => []
  | _, [] => []
  | _, [_] => err
  | fuel + 1, b1 :: b2 :: rest =>
    let u := b1 + b2 * 256
    if 55296 ≤ u && u ≤ 56319 then
      match rest with
      | c1 :: c2 :: r2 =>
        let v := c1 + c2 * 256
        if 56320 ≤ v && v ≤ 57343 then
          Char.ofNat (65536 + (u - 55296) * 1024 + (v - 56320)) ::
            utf16leDecodeFuel err fuel r2
        else err ++ utf16leDecodeFuel err fuel rest
      | _ => err
    else if 56320 ≤ u && u ≤ 57343 then err ++ utf16leDecodeFuel err fuel rest
    else Char.ofNat u :: utf16leDecodeFuel err fuel rest

/-- UTF-16LE decode of a whole buffer. -/
def utf16leDecode (err : Str) (l : List Nat) : Str :=
  utf16leDecodeFuel err l.length l

inductive PyEncoding where
  | utf8
  | utf16le
  | latin1
deriving DecidableEq

/-- `raw.decode(enc, errors='ignore')` for the three encodings the script
tries.  With `errors='ignore'` none of these codecs can raise, so the
result is always `some`. -/
def pyDecodeIgnore (enc : PyEncoding) (raw : List Nat) : Option Str :=
  match enc with
  | PyEncoding.utf8 => some ((utf8Decode [] raw).map Char.ofNat)
  | PyEncoding.utf16le => some (utf16leDecode [] raw)
  | PyEncoding.latin1 => some (raw.map Char.ofNat)

/-- The script's decode loop (lines 42-47 and 131-136): try UTF-8, then
UTF-16LE, then Latin-1, keeping the first decode that does not raise. -/
def decodeLoop (raw : List Nat) : Option Str :=
  firstSome [PyEncoding.utf8, PyEncoding.utf16le, PyEncoding.latin1]
    (fun e => pyDecodeIgnore e raw)

/-- The decoded text the script works with. -/
def decodeChain (raw : List Nat) : Str :=
  (decodeLoop raw).getD []

/-- Modelled from the spec: the spec states that the decoder returns "the
first attempt that succeeds with unmappable bytes replaced rather than
raising" — i.e. `errors='replace'` semantics, each malformed maximal
subpart becoming U+FFFD.  (The code instead passes `errors='ignore'`.) -/
def pyDecodeReplaceSpec (enc : PyEncoding) (raw : List Nat) : Option Str :=
  match enc with
  | PyEncoding.utf8 => some ((utf8Decode [65533] raw).map Char.ofNat)
  | PyEncoding.utf16le => some (utf16leDecode [Char.ofNat 65533] raw)
  | PyEncoding.latin1 => some (raw.map Char.ofNat)

/-- Modelled from the spec: the full decode chain under the spec's
"replaced rather than raising" reading. -/
def decodeChainReplaceSpec (raw : List Nat) : Str :=
  (firstSome [PyEncoding.utf8, PyEncoding.utf16le, PyEncoding.latin1]
    (fun e => pyDecodeReplaceSpec e raw)).getD []

/-! ### XML model

`xml.etree.ElementTree.fromstring` is external; `fromstring` below models
it on the element/attribute XML subset the script's query-spec fragments
use (nested elements, self-closing elements, quoted attributes, text
content that is skipped, parse failure as `none`).  Namespaced documents
are out of scope — the script's inputs carry no `xmlns`. -/

inductive XNode where
  | mk (tag : Str) (attrs : List (Str × Str)) (children : List XNode)

def XNode.tag : XNode → Str
  | XNode.mk t _ _ => t

def XNode.attrs : XNode → List (Str × Str)
  | XNode.mk _ a _ => a

def XNode.children : XNode → List XNode
  | XNode.mk _ _ k => k

/-- XML name characters (enough for the script's documents). -/
def isNameChar (c : Char) : Bool :=
  isAlphaChar c || isDigitChar c || c = '_' || c = ':' || c = '-' || c = '.'

def skipWs (s : Str) : Str :=
  s.dropWhile (fun c => isWsChar c)

/-- Parse a run of attributes, stopping before `/` or `>`. -/
def parseAttrs : Nat → Str → Option (List (Str × Str) × Str)
  | 0, _ => none
  | fuel + 1, s =>
    let s := skipWs s
    match s with
    | '/' :: _ => some ([], s)
    | '>' :: _ => some ([], s)
    | _ =>
      let nm := s.takeWhile (fun c => isNameChar c)
      let s1 := s.dropWhile (fun c => isNameChar c)
      if nm = [] then none
      else
        match skipWs s1 with
        | '=' :: s2 =>
          match skipWs s2 with
          | q :: s3 =>
            if isQuoteChar q then
              let v := s3.takeWhile (fun c => !(c = q))
              match s3.dropWhile (fun c => !(c = q)) with
              | _ :: s4 =>
                (parseAttrs fuel s4).map (fun pr => ((nm, v) :: pr.1, pr.2))
              | [] => none
            else none
          | [] => none
        | _ => none

mutual

/-- Parse one element: `<tag attrs/>` or `<tag attrs>children</tag>`. -/
def parseElem : Nat → Str → Option (XNode × Str)
  | 0, _ => none
  | fuel + 1, s =>
    match skipWs s with
    | '<' :: s1 =>
      let tag := s1.takeWhile (fun c => isNameChar c)
      let s2 := s1.dropWhile (fun c => isNameChar c)
      if tag = [] then none
      else
        match parseAttrs (s2.length + 1) s2 with
        | some (attrs, s3) =>
          match s3 with
          | '/' :: '>' :: s4 => some (XNode.mk tag attrs [], s4)
          | '>' :: s4 =>
            match parseKids fuel s4 with
            | some (kids, s5) =>
              match s5 with
              | '<' :: '/' :: s6 =>
                let nm := s6.takeWhile (fun c => isNameChar c)
                let s7 := s6.dropWhile (fun c => isNameChar c)
                if nm = tag then
                  match skipWs s7 with
                  | '>' :: s8 => some (XNode.mk tag attrs kids, s8)
                  | _ => none
                else none
              | _ => none
            | none => none
          | _ => none
        | none => none
    | _ => none

/-- Parse child elements up to (but not consuming) a closing tag,
skipping interleaved text. -/
def parseKids : Nat → Str → Option (List XNode × Str)
  | 0, _ => none
  | fuel + 1, s =>
    let s1 := s.dropWhile (fun c => !(c = '<'))
    match s1 with
    | '<' :: '/' :: _ => some ([], s1)
    | '<' :: _ =>
      match parseElem fuel s1 with
      | some (el, rest) =>
        (parseKids fuel rest).map (fun pr => (el :: pr.1, pr.2))
      | none => none
    | _ => none

end

/-- Models `ET.fromstring`: whole-input parse of a single root element. -/
def fromstring (s : Str) : Option XNode :=
  match parseElem (2 * s.length + 4) s with
  | some (x, rest) => if skipWs rest = [] then some x else none
  | none => none

mutual

/-- All proper descendants of a node in document order
(`root.findall('.//*')`). -/
def descend : XNode → List XNode
  | XNode.mk _ _ kids => descendList kids

def descendList : List XNode → List XNode
  | [] => []
  | k :: ks => k :: (descend k ++ descendList ks)

end

/-- `el.get(name)`. -/
def xGet (el : XNode) (name : Str) : Option Str :=
  (el.attrs.find? (fun p => p.1 == name)).map (fun p => p.2)

/-- Python's `el.get(a) or el.get(b) or ...` chain: the first attribute
that is present and non-empty ('' is falsy). -/
def orChain (el : XNode) (names : List Str) : Option Str :=
  firstSome names (fun n =>
    match xGet el n with
    | some v => if v = [] then none else some v
    | none => none)

/-! ### String helpers -/

/-- Python `str.strip()` (whitespace, both ends). -/
def stripPy (s : Str) : Str :=
  ((s.dropWhile (fun c => isWsChar c)).reverse.dropWhile (fun c => isWsChar c)).reverse

/-- `needle in hay` (Python substring containment). -/
def containsSub (needle : Str) : Str → Bool
  | [] => needle.isPrefixOf []
  | c :: t => needle.isPrefixOf (c :: t) || containsSub needle t

/-- Decimal rendering of a Nat, as characters. -/
def natStr (n : Nat) : Str :=
  (Nat.repr n).data

def isWordCharOpt : Option Char → Bool
  | some c => isWordChar c
  | none => false

/-- `re.search(r'\b<w>\b', s)` for a word `w` made of word characters:
is `w` present with non-word (or edge) context on both sides?  `prev` is
the character before the current position. -/
def searchWordAux (w : Str) (prev : Option Char) : Str → Bool
  | [] => false
  | c :: t =>
    (w.isPrefixOf (c :: t) && !(isWordCharOpt prev) &&
      !(isWordCharOpt (List.head? (List.drop w.length (c :: t))))) ||
    searchWordAux w (some c) t

/-- `re.search(r'\buniverses?\b', s)`: the optional greedy `s?` takes a
following `'s'` when the boundary after it holds; with a following `'s'`
and no boundary after it, the shorter alternative cannot end at a word
boundary either. -/
def searchUniAux (prev : Option Char) : Str → Bool
  | [] => false
  | c :: t =>
    ("universe".data.isPrefixOf (c :: t) && !(isWordCharOpt prev) &&
      (match List.head? (List.drop 8 (c :: t)) with
       | some d =>
         if d = 's' then !(isWordCharOpt (List.head? (List.drop 9 (c :: t))))
         else !(isWordChar d)
       | none => true)) ||
    searchUniAux (some c) t

/-! ### Column Normalizer (`clean_column_name`, lines 342-348) -/

/-- `re.sub(r'[^A-Za-z0-9\s]', '', name or '')`. -/
def cleanStage1 (name : Str) : Str :=
  name.filter (fun c => isAlphaChar c || isDigitChar c || isWsChar c)

/-- `re.sub(r'\s+', '_', s)`: each maximal whitespace run becomes one
underscore; `prevWs` records whether the previous character was part of a
run already replaced. -/
def collapseWsAux (prevWs : Bool) : Str → Str
  | [] => []
  | c :: s =>
    if isWsChar c then
      if prevWs then collapseWsAux true s else '_' :: collapseWsAux true s
    else c :: collapseWsAux false s

/-- `s.strip('_')`. -/
def stripUscore (s : Str) : Str :=
  ((s.dropWhile (fun c => c = '_')).reverse.dropWhile (fun c => c = '_')).reverse

/-- The value of `s` after line 345 (`sub`, `strip('_')`, `lower()`). -/
def cleanCore (name : Str) : Str :=
  (stripUscore (collapseWsAux false (cleanStage1 name))).map Char.toLower

/-- `clean_column_name`: normalize to lowercase_underscore, prefixing
`f_` when the result is non-empty and starts with a non-letter. -/
def clean_column_name (name : Str) : Str :=
  match cleanCore name with
  | [] => []
  | c :: cs => if isAlphaChar c then c :: cs else 'f' :: '_' :: c :: cs

/-! ### Field extractors -/

/-- `extract_xml` (lines 155-164): first `QuerySpec`-delimited block. -/
def extract_xml (text : Str) : Option Str :=
  if text = [] then none
  else (finditerAux xmlPat text).head?.map (fun res => groupOf res 1)

structure FieldInfo where
  display_name : Str
  expression : Str
  element_type : Str
  data_type : Str
  is_calculated : Bool
deriving DecidableEq

/-- `extract_comprehensive_field_info` (lines 167-218): walk every element
of the parsed fragment, then independently regex-scan the raw fragment for
`QueryCalculation` elements.  On a parse error the function returns the
empty map (the `except` path returns before the regex pass). -/
def extract_comprehensive_field_info (xml_text : Str) : List (Str × FieldInfo) :=
  if xml_text = [] then []
  else
    match fromstring xml_text with
    | none => []
    | some root =>
      let step1 := (descend root).foldl (fun info el =>
        let fid := orChain el
          ["id".data, "identifier".data, "uniqueName".data, "technicalName".data]
        let disp := orChain el ["name".data, "displayName".data, "caption".data]
        let expr := (orChain el
          ["expression".data, "formula".data, "calculation".data]).getD []
        let dt := (orChain el ["dataType".data, "type".data]).getD []
        match fid, disp with
        | some f, some d =>
          dictInsert info f
            ⟨stripPy d, stripPy expr, el.tag, dt, !(stripPy expr = [])⟩
        | _, _ => info) []
      (finditerAux qcPat xml_text).foldl (fun info res =>
        let aliasV := stripPy (groupOf res 1)
        let calcV := stripPy (groupOf res 2)
        dictInsert info ("QC::".data ++ aliasV)
          ⟨aliasV, calcV, "QueryCalculation".data, [], true⟩) step1

structure DirectMapping where
  display_name : Str
  sample_value : Str
deriving DecidableEq

/-- Pass 1 of `extract_direct_mappings` (lines 226-231): assignment lines
`name = value, DP#.DO<token>`. -/
def direct_pass1 (text : Str) : List (Str × DirectMapping) :=
  (finditerAux pat1 text).foldl (fun dm res =>
    dictInsert dm (groupOf res 3)
      ⟨stripPy (groupOf res 1), stripPy (groupOf res 2)⟩) []

/-- `extract_direct_mappings` (lines 221-235): pass 1, then bare
`DP#.DO<token>` occurrences added with `setdefault`. -/
def extract_direct_mappings (text : Str) : List (Str × DirectMapping) :=
  ((finditerAux pat2 text).map (fun res => groupOf res 1)).foldl
    (fun dm k => dictSetdefault dm k ⟨[], []⟩) (direct_pass1 text)

/-- `extract_dp_formulas` (lines 238-246): for each of the three attribute
patterns in order, number its matches from 0 and store them under
`<dp_id>_FORM_<i>`.  The index restarts for each pattern, so the three
kinds share one key space. -/
def extract_dp_formulas (text : Str) (dp_id : Str) : List (Str × Str) :=
  [formulaAttrPat, expressionAttrPat, calculationAttrPat].foldl (fun out pat =>
    ((finditerAux pat text).enum).foldl (fun out im =>
      dictInsert out (dp_id ++ "_FORM_".data ++ natStr im.1)
        (stripPy (groupOf im.2 1))) out) []

/-! ### Mapping Merger (`process_enhanced_mappings`, lines 249-294) -/

structure MappingRecord where
  dataProviderId : Str
  dataProvider : Str
  technicalId : Str
  displayName : Str
  fieldType : Str
  formula : Str
  description : Str
  sampleValue : Str
  databricksTable : Str
  databricksColumn : Str
  xmlId : Str
deriving DecidableEq

/-- Row appended for one XML-miner field (lines 251-264). -/
def minerRecord (dp_id dp_name fid : Str) (fi : FieldInfo) : MappingRecord :=
  ⟨dp_id, dp_name, fid, fi.display_name,
   (if fi.is_calculated then "Calculated Field".data else "Data Field".data),
   fi.expression, fi.element_type ++ ", type=".data ++ fi.data_type, [], [],
   clean_column_name fi.display_name, fid⟩

/-- Row appended for one direct mapping (lines 268-280);
`mm['display_name'] or tid` falls back to the technical id when the
display name is empty. -/
def directRecord (dp_id dp_name tid : Str) (mm : DirectMapping) : MappingRecord :=
  ⟨dp_id, dp_name, tid, mm.display_name, "Data Field".data, [],
   "Direct mapping".data, mm.sample_value, [],
   clean_column_name (if mm.display_name = [] then tid else mm.display_name), []⟩

/-- Row appended for one synthesized formula entry (lines 281-294). -/
def formulaRecord (dp_id dp_name fid formula : Str) : MappingRecord :=
  ⟨dp_id, dp_name, fid, "Formula ".data ++ fid, "Data Provider Formula".data,
   formula, "From DP_Generic".data, [], [],
   clean_column_name ("formula_".data ++ fid), []⟩

/-- The direct-mapping stage (lines 265-280): each record is skipped when
its technical id already occurs anywhere in the accumulated list. -/
def directFold (dp_id dp_name : Str) (dm : List (Str × DirectMapping))
    (out : List MappingRecord) : List MappingRecord :=
  dm.foldl (fun out p =>
    if out.any (fun r => r.technicalId == p.1) then out
    else out ++ [directRecord dp_id dp_name p.1 p.2]) out

/-- `process_enhanced_mappings`: miner rows, then deduplicated direct
rows, then all formula rows, appended to the shared list `out`. -/
def process_enhanced_mappings (dp_id dp_name : Str)
    (field_info : List (Str × FieldInfo)) (direct_map : List (Str × DirectMapping))
    (dp_forms : List (Str × Str)) (out : List MappingRecord) : List MappingRecord :=
  let out1 := out ++ field_info.map (fun p => minerRecord dp_id dp_name p.1 p.2)
  let out2 := directFold dp_id dp_name direct_map out1
  out2 ++ dp_forms.map (fun p => formulaRecord dp_id dp_name p.1 p.2)

/-! ### Archive-level pipeline (`extract_field_mappings` and helpers)

`zipfile.ZipFile` is external: an opened archive is modelled as its entry
list (name, raw bytes) in archive order, which fixes `namelist()` and
`read`. -/

abbrev ZipArchive := List (Str × List Nat)

def namelist (z : ZipArchive) : List Str :=
  z.map (fun e => e.1)

def zread (z : ZipArchive) (fn : Str) : Option (List Nat) :=
  (z.find? (fun e => e.1 == fn)).map (fun e => e.2)

/-- `extract_data_provider_names` (lines 120-152). -/
def extract_data_provider_names (z : ZipArchive) : List (Str × Str) :=
  z.foldl (fun dp_names e =>
    if "DP_Generic".data.isSuffixOf e.1 then
      match (finditerAux dpNumPat e.1).head? with
      | none => dp_names
      | some m =>
        let dp := groupOf m 1
        let txt := decodeChain e.2
        match extract_xml txt with
        | some qxml =>
          let lo := qxml.map Char.toLower
          if containsSub "com.sap.sl.queryspec".data lo || containsSub "bex".data lo then
            dictInsert dp_names dp "BEx".data
          else if searchWordAux "emp".data none lo then
            dictInsert dp_names dp "EMP".data
          else if searchUniAux none lo then
            dictInsert dp_names dp "universes".data
          else dictInsert dp_names dp dp
        | none => dictInsert dp_names dp dp
    else dp_names) []

structure DocEntry where
  id : Str
  name : Str
  formula : Str
  description : Str
deriving DecidableEq

/-- `extract_calculated_fields` (lines 297-319): document-level scan of
entries whose upper-cased name mentions DOCUMENT/REPORT/STRUCTURE,
decoded as UTF-16LE with `errors='ignore'` (which cannot raise, so the
`latin-1` fallback is unreachable). -/
def extract_calculated_fields (z : ZipArchive) : List DocEntry :=
  z.foldl (fun results e =>
    let up := e.1.map Char.toUpper
    if containsSub "DOCUMENT".data up || containsSub "REPORT".data up ||
        containsSub "STRUCTURE".data up then
      let txt := utf16leDecode [] e.2
      [cfPat, qcPat].foldl (fun results pat =>
        (finditerAux pat txt).foldl (fun results res =>
          results ++ [⟨"CF_".data ++ natStr results.length,
            stripPy (groupOf res 1), stripPy (groupOf res 2),
            "From ".data ++ e.1⟩]) results) results
    else results) []

/-- `extract_report_variables` (lines 322-339). -/
def extract_report_variables (z : ZipArchive) : List DocEntry :=
  z.foldl (fun results e =>
    let up := e.1.map Char.toUpper
    if containsSub "DOCUMENT".data up || containsSub "VARIABLE".data up ||
        containsSub "FORMULA".data up then
      let txt := utf16leDecode [] e.2
      (finditerAux varPat txt).foldl (fun results res =>
        results ++ [⟨"RV_".data ++ natStr results.length,
          stripPy (groupOf res 1), stripPy (groupOf res 2),
          "From ".data ++ e.1⟩]) results
    else results) []

/-- `dp_folder.split('/')[-2]` (the folder name ends in `/`). -/
def secondLast (l : List Str) : Str :=
  (l.reverse.drop 1).headD []

/-- The per-provider body of the main loop given the decoded text of the
provider's `DP_Generic` entry (lines 49-55). -/
def providerRowsFromText (dp_id dp_nm : Str) (text : Str)
    (mappings : List MappingRecord) : List MappingRecord :=
  let xml := extract_xml text
  let field_info :=
    match xml with
    | some x => extract_comprehensive_field_info x
    | none => []
  let direct_map := extract_direct_mappings text
  let dp_forms := extract_dp_formulas text dp_id
  process_enhanced_mappings dp_id dp_nm field_info direct_map dp_forms mappings

/-- One iteration of the `dp_folders` loop (lines 34-55). -/
def providerStep (dp_names : List (Str × Str)) (z : ZipArchive)
    (mappings : List MappingRecord) (dp_folder : Str) : List MappingRecord :=
  let dp_id := secondLast (dp_folder.splitOn '/')
  let dp_nm := (dictGet dp_names dp_id).getD dp_id
  let dpg := dp_folder ++ "DP_Generic".data
  match zread z dpg with
  | none => mappings
  | some raw => providerRowsFromText dp_id dp_nm (decodeChain raw) mappings

/-- All rows accumulated by `extract_field_mappings` before sorting
(lines 23-85): provider rows, then document-level calculated fields and
report variables. -/
def buildMappings (z : ZipArchive) : List MappingRecord :=
  let dp_names := extract_data_provider_names z
  let calc_fields := extract_calculated_fields z
  let report_vars := extract_report_variables z
  let dp_folders := (namelist z).filter (fun f =>
    "/".data.isSuffixOf f && containsSub "/DATAPROVIDERS/DP".data f)
  let mappings := dp_folders.foldl (fun ms folder => providerStep dp_names z ms folder) []
  let mappings := mappings ++ calc_fields.map (fun cf =>
    (⟨"CALC".data, "Document Variables".data, cf.id, cf.name,
      "Calculated Field".data, cf.formula, cf.description, [], [],
      clean_column_name cf.name, []⟩ : MappingRecord))
  mappings ++ report_vars.map (fun rv =>
    (⟨"VAR".data, "Report Variables".data, rv.id, rv.name,
      "Report Variable".data, rv.formula, rv.description, [], [],
      clean_column_name rv.name, []⟩ : MappingRecord))

/-! ### Report Assembler: sorting and sheet views -/

/-- Python string `<=` (lexicographic by code point). -/
def strLe : Str → Str → Bool
  | [], _ => true
  | _ :: _, [] => false
  | a :: as, b :: bs =>
    if a.toNat < b.toNat then true
    else if b.toNat < a.toNat then false
    else strLe as bs

/-- Row order of `df.sort_values(['Data Provider', 'Display Name'])`:
primary key provider display label, secondary key display name. -/
def keyLe (a b : MappingRecord) : Bool :=
  if a.dataProvider = b.dataProvider then strLe a.displayName b.displayName
  else strLe a.dataProvider b.dataProvider

/-- Insert before the first element not strictly below `r`, so elements
equal to `r` that are already in place stay in front of later arrivals
— the stable insertion. -/
def insertSorted (r : MappingRecord) : List MappingRecord → List MappingRecord
  | [] => [r]
  | x :: xs => if keyLe r x then r :: x :: xs else x :: insertSorted r xs

/-- Models pandas' multi-key `sort_values`, which uses a stable
lexicographic sort when given more than one key: a stable sort is unique
as a function of the key order, and stable insertion sort implements it. -/
def sortMappings : List MappingRecord → List MappingRecord
  | [] => []
  | r :: rs => insertSorted r (sortMappings rs)

/-- The final ordered table (line 101). -/
def buildTable (z : ZipArchive) : List MappingRecord :=
  sortMappings (buildMappings z)

/-- `Field Type` in `{Calculated Field, Report Variable}` (line 107). -/
def isCalcOrVar (r : MappingRecord) : Bool :=
  r.fieldType == "Calculated Field".data || r.fieldType == "Report Variable".data

/-- Sheet names written for a table (lines 89-111): nothing at all when
the table is empty; otherwise "All Fields", then "Calculated Fields"
only when its subset is non-empty, then "Data Fields" unconditionally. -/
def sheetNames (table : List MappingRecord) : List Str :=
  if table = [] then []
  else
    "All Fields".data ::
      (if table.filter isCalcOrVar = [] then [] else ["Calculated Fields".data]) ++
      ["Data Fields".data]

/-! ### Archive Locator (lines 11-16) -/

/-- The ZIP local-file-header signature `PK\x03\x04`. -/
def zipSig : List Nat := [80, 75, 3, 4]

/-- `raw.find(pat)`: index of the first occurrence. -/
def findSub (pat : List Nat) : List Nat → Option Nat
  | [] => none
  | b :: rest =>
    if List.take pat.length (b :: rest) == pat then some 0
    else (findSub pat rest).map (fun i => i + 1)

/-- Lines 12-16: fail when the signature is absent, else open the archive
view at the first signature offset. -/
def locateArchive (raw : List Nat) : Except Str (List Nat) :=
  match findSub zipSig raw with
  | none => Except.error "Not a valid .wid (no ZIP signature).".data
  | some i => Except.ok (raw.drop i)

/-- The whole run for one container file: locate the embedded archive,
parse it (external — `parseZip` stands for `zipfile.ZipFile`), and build
the output table and its sheet list.  The `ValueError` raised on a
missing signature propagates before anything is parsed or written. -/
def extractOutputs (parseZip : List Nat → ZipArchive) (raw : List Nat) :
    Except Str (List MappingRecord × List Str) :=
  match locateArchive raw with
  | Except.error e => Except.error e
  | Except.ok payload =>
    let table := buildTable (parseZip payload)
    Except.ok (table, sheetNames table)

/-! ### Concrete inputs used by the claims -/

/-- ASCII text as raw bytes. -/
def asciiBytes (s : Str) : List Nat :=
  s.map Char.toNat

/-- Query-spec fragment of the one-provider end-to-end scenario. -/
def text4 : Str :=
  "<QuerySpec><object id=\"F1\" name=\"Revenue\" expression=\"SUM(X)\"/></QuerySpec>".data

/-- A container archive with exactly one provider whose `DP_Generic` holds
`text4` and nothing else extractable. -/
def arch4 : ZipArchive :=
  [("Data/DATAPROVIDERS/DP1/".data, []),
   ("Data/DATAPROVIDERS/DP1/DP_Generic".data, asciiBytes text4)]

/-- The XML-miner row the end-to-end scenario produces. -/
def minerRow4 : MappingRecord :=
  ⟨"DP1".data, "DP1".data, "F1".data, "Revenue".data, "Calculated Field".data,
   "SUM(X)".data, "object, type=".data, [], [], "revenue".data, "F1".data⟩

/-- The formula-attribute-scanner row the same scenario produces from the
`expression="SUM(X)"` attribute occurrence in the raw text. -/
def formulaRow4 : MappingRecord :=
  ⟨"DP1".data, "DP1".data, "DP1_FORM_0".data, "Formula DP1_FORM_0".data,
   "Data Provider Formula".data, "SUM(X)".data, "From DP_Generic".data, [], [],
   "formuladp1form0".data, []⟩

/-- Provider text of the direct-mapping end-to-end scenario. -/
def text8 : Str := "Total = 42, DP1.DO7".data

/-- The single merged row that scenario produces. -/
def row8 : MappingRecord :=
  ⟨"DP1".data, "DP1".data, "DP1.DO7".data, "Total".data, "Data Field".data, [],
   "Direct mapping".data, "42".data, [], "total".data, []⟩

/-- A container archive around `text8`. -/
def arch8 : ZipArchive :=
  [("Data/DATAPROVIDERS/DP1/".data, []),
   ("Data/DATAPROVIDERS/DP1/DP_Generic".data, asciiBytes text8)]

/-- Provider text with one `formula=` and one `expression=` occurrence. -/
def text6 : Str := "formula=\"A\" expression=\"B\"".data

/-- Provider text with two `formula=` occurrences. -/
def text6b : Str := "formula=\"A\" formula=\"B\"".data

/-- A field-info entry for the C1/C10 witnesses. -/
def wFieldInfo : FieldInfo :=
  ⟨"Revenue".data, [], "object".data, [], false⟩

/-- Direct-mapping map containing the miner's id `F1` and a fresh id `A`. -/
def wDirectMap : List (Str × DirectMapping) :=
  [("F1".data, ⟨[], []⟩), ("A".data, ⟨[], []⟩)]

/-- The direct row the witness scenario appends for the fresh id `A`. -/
def wDirectRowA : MappingRecord :=
  directRecord "DP1".data "DP1".data "A".data ⟨[], []⟩

/-- Second-provider direct map for the C10 witness: the token
`DP1.DO7` was already captured for the first provider. -/
def w10DirectMap : List (Str × DirectMapping) :=
  [("DP1.DO7".data, ⟨[], []⟩), ("DP2.DO1".data, ⟨[], []⟩)]

/-- The direct row the C10 witness scenario appends for `DP2.DO1`. -/
def w10DirectRow : MappingRecord :=
  directRecord "DP2".data "DP2".data "DP2.DO1".data ⟨[], []⟩

/-- The accumulated output of the first provider in the C10 witness
scenario. -/
def out10w : List MappingRecord :=
  providerRowsFromText "DP1".data "DP1".data text8 []

/-- The sort key of a row: (provider display label, display name). -/
def keyOf (r : MappingRecord) : Str × Str :=
  (r.dataProvider, r.displayName)

/-! ## Theorems -/

/-- C4 counterexample: on the one-provider container whose query-spec XML
is exactly `<object id="F1" name="Revenue" expression="SUM(X)"/>` inside
its `QuerySpec` wrapper, the final table has TWO rows, not one: the
formula-attribute scanner also matches the `expression="SUM(X)"`
occurrence in the raw text and synthesizes a second record. -/
theorem claim_C4_counterexample : (buildTable arch4).length = 2 := by
  decide

/-- C4 (amended): on that container the final table consists of exactly
the "Data Provider Formula" row synthesized from the bare
`expression="SUM(X)"` attribute occurrence (Technical ID `DP1_FORM_0`,
Formula `SUM(X)`) followed by the XML-miner row with Field Type
"Calculated Field", Formula "SUM(X)" and Databricks Column "revenue". -/
theorem claim_C4_amended : buildTable arch4 = [formulaRow4, minerRow4] := by
  decide

/-- C6 counterexample: a provider text with one `formula=` occurrence and
one `expression=` occurrence yields a single formula record, not two —
the per-kind numbering restarts at 0, the synthesized identifier does not
encode the attribute kind, and the `expression` match overwrites the
`formula` match under the shared key `DP1_FORM_0`. -/
theorem claim_C6_counterexample :
    (finditerAux formulaAttrPat text6).length = 1 ∧
    (finditerAux expressionAttrPat text6).length = 1 ∧
    extract_dp_formulas text6 "DP1".data = [("DP1_FORM_0".data, "B".data)] := by
  refine ⟨by decide, by decide, by decide⟩

/-- C9 counterexample: the container around `Total = 42, DP1.DO7` yields a
non-empty table whose only row is a Data Field, and the spreadsheet then
contains only the sheets "All Fields" and "Data Fields" — the
"Calculated Fields" sheet is skipped when its subset is empty. -/
theorem claim_C9_counterexample :
    buildTable arch8 = [row8] ∧
    sheetNames (buildTable arch8) = ["All Fields".data, "Data Fields".data] := by
  refine ⟨by decide, by decide⟩

/-! ### Merger lemmas -/

/-- The direct-mapping stage only appends, every appended row is a
direct-mapping row, and no appended row repeats a technical id already
present in the accumulator it started from. -/
theorem directFold_spec (dp_id dp_name : Str) :
    ∀ (dm : List (Str × DirectMapping)) (acc : List MappingRecord),
      ∃ t, directFold dp_id dp_name dm acc = acc ++ t ∧
        ∀ r ∈ t, r.description = "Direct mapping".data ∧
          ∀ q ∈ acc, r.technicalId ≠ q.technicalId := by
  intro dm
  induction dm with
  | nil =>
    intro acc
    exact ⟨[], by simp [directFold], by simp⟩
  | cons p rest ih =>
    intro acc
    by_cases h : acc.any (fun r => r.technicalId == p.1) = true
    · have hstep : directFold dp_id dp_name (p :: rest) acc
          = directFold dp_id dp_name rest acc := by
        simp only [directFold, List.foldl_cons, h, if_pos]
      obtain ⟨t, ht, hp⟩ := ih acc
      exact ⟨t, by rw [hstep, ht], hp⟩
    · have hstep : directFold dp_id dp_name (p :: rest) acc
          = directFold dp_id dp_name rest (acc ++ [directRecord dp_id dp_name p.1 p.2]) := by
        simp only [directFold, List.foldl_cons, h, if_neg, Bool.false_eq_true,
          not_false_iff, if_false]
      obtain ⟨t, ht, hprop⟩ := ih (acc ++ [directRecord dp_id dp_name p.1 p.2])
      refine ⟨directRecord dp_id dp_name p.1 p.2 :: t, ?_, ?_⟩
      · rw [hstep, ht]
        simp
      · intro r hr
        rcases List.mem_cons.1 hr with rfl | hr'
        · refine ⟨rfl, ?_⟩
          intro q hq heq
          apply h
          rw [List.any_eq_true]
          refine ⟨q, hq, ?_⟩
          rw [beq_iff_eq]
          exact heq.symm ▸ rfl
        · obtain ⟨hd, hq⟩ := hprop r hr'
          exact ⟨hd, fun q hqa => hq q (List.mem_append.2 (Or.inl hqa))⟩

/-- Decomposition of the merger: the result is the input followed by the
miner rows, then the surviving direct rows, then all formula rows. -/
theorem process_split (dp_id dp_name : Str) (fi : List (Str × FieldInfo))
    (dm : List (Str × DirectMapping)) (df : List (Str × Str))
    (out : List MappingRecord) :
    ∃ t, process_enhanced_mappings dp_id dp_name fi dm df out
        = out ++ (fi.map (fun p => minerRecord dp_id dp_name p.1 p.2) ++ t
            ++ df.map (fun p => formulaRecord dp_id dp_name p.1 p.2)) ∧
      ∀ r ∈ t, r.description = "Direct mapping".data ∧
        ∀ q ∈ out ++ fi.map (fun p => minerRecord dp_id dp_name p.1 p.2),
          r.technicalId ≠ q.technicalId := by
  obtain ⟨t, ht, hp⟩ := directFold_spec dp_id dp_name dm
    (out ++ fi.map (fun p => minerRecord dp_id dp_name p.1 p.2))
  refine ⟨t, ?_, hp⟩
  show directFold dp_id dp_name dm
      (out ++ fi.map (fun p => minerRecord dp_id dp_name p.1 p.2))
      ++ df.map (fun p => formulaRecord dp_id dp_name p.1 p.2) = _
  rw [ht]
  simp [List.append_assoc]

/-- C1: if the XML miner yielded a field with technical id `X` for this
provider, the merge appends no direct-mapping row carrying `X`. -/
theorem claim_C1 (dp_id dp_name X : Str) (field_info : List (Str × FieldInfo))
    (direct_map : List (Str × DirectMapping)) (dp_forms : List (Str × Str))
    (out : List MappingRecord) (hX : ∃ fi, (X, fi) ∈ field_info) :
    ∀ r ∈ List.drop out.length
        (process_enhanced_mappings dp_id dp_name field_info direct_map dp_forms out),
      r.description = "Direct mapping".data → r.technicalId ≠ X := by
  obtain ⟨fiX, hmem⟩ := hX
  obtain ⟨t, heq, hp⟩ := process_split dp_id dp_name field_info direct_map dp_forms out
  intro r hr hdesc
  rw [heq, List.drop_left] at hr
  rcases List.mem_append.1 hr with h12 | h3
  · rcases List.mem_append.1 h12 with h1 | h2
    · obtain ⟨p, _, rfl⟩ := List.mem_map.1 h1
      have hmm : '=' ∈ (minerRecord dp_id dp_name p.1 p.2).description := by
        show '=' ∈ (p.2.element_type ++ ", type=".data) ++ p.2.data_type
        exact List.mem_append.2 (Or.inl (List.mem_append.2 (Or.inr (by decide))))
      rw [hdesc] at hmm
      exact absurd hmm (by decide)
    · have hq := (hp r h2).2 (minerRecord dp_id dp_name X fiX)
        (List.mem_append.2 (Or.inr (List.mem_map.2 ⟨(X, fiX), hmem, rfl⟩)))
      exact fun hX' => hq (by rw [hX']; rfl)
  · obtain ⟨p, _, rfl⟩ := List.mem_map.1 h3
    have : (formulaRecord dp_id dp_name p.1 p.2).description
        = "From DP_Generic".data := rfl
    rw [this] at hdesc
    exact absurd hdesc (by decide)

theorem claim_C1_witness :
    (∃ fi, ("F1".data, fi) ∈ [("F1".data, wFieldInfo)]) ∧
    wDirectRowA.technicalId ≠ "F1".data :=
  ⟨⟨wFieldInfo, by decide⟩,
   claim_C1 "DP1".data "DP1".data "F1".data [("F1".data, wFieldInfo)] wDirectMap [] []
     ⟨wFieldInfo, by decide⟩ wDirectRowA (by decide) (by decide)⟩

/-- C10: the duplicate check of the direct-mapping stage runs against the
whole accumulated list, so a technical id contributed by ANY earlier row
— including rows merged for earlier providers — suppresses a
direct-mapping row with the same id for the current provider. -/
theorem claim_C10 (dp_id dp_name tid : Str) (field_info : List (Str × FieldInfo))
    (direct_map : List (Str × DirectMapping)) (dp_forms : List (Str × Str))
    (out : List MappingRecord) (h : ∃ q ∈ out, q.technicalId = tid) :
    ∀ r ∈ List.drop out.length
        (process_enhanced_mappings dp_id dp_name field_info direct_map dp_forms out),
      r.description = "Direct mapping".data → r.technicalId ≠ tid := by
  obtain ⟨q0, hq0, hq0t⟩ := h
  obtain ⟨t, heq, hp⟩ := process_split dp_id dp_name field_info direct_map dp_forms out
  intro r hr hdesc
  rw [heq, List.drop_left] at hr
  rcases List.mem_append.1 hr with h12 | h3
  · rcases List.mem_append.1 h12 with h1 | h2
    · obtain ⟨p, _, rfl⟩ := List.mem_map.1 h1
      have hmm : '=' ∈ (minerRecord dp_id dp_name p.1 p.2).description := by
        show '=' ∈ (p.2.element_type ++ ", type=".data) ++ p.2.data_type
        exact List.mem_append.2 (Or.inl (List.mem_append.2 (Or.inr (by decide))))
      rw [hdesc] at hmm
      exact absurd hmm (by decide)
    · have hq := (hp r h2).2 q0 (List.mem_append.2 (Or.inl hq0))
      exact fun hX' => hq (by rw [hX', hq0t])
  · obtain ⟨p, _, rfl⟩ := List.mem_map.1 h3
    have : (formulaRecord dp_id dp_name p.1 p.2).description
        = "From DP_Generic".data := rfl
    rw [this] at hdesc
    exact absurd hdesc (by decide)

theorem claim_C10_witness :
    (∃ q ∈ out10w, q.technicalId = "DP1.DO7".data) ∧
    w10DirectRow.technicalId ≠ "DP1.DO7".data :=
  ⟨by decide,
   claim_C10 "DP2".data "DP2".data "DP1.DO7".data [] w10DirectMap [] out10w
     (by decide) w10DirectRow (by decide) (by decide)⟩

/-- C6 (amended): matches are numbered sequentially per provider and per
attribute kind, but the synthesized id does not record the kind, so the
three kinds share one key space and a later kind's match overwrites an
earlier kind's record at the same index (`text6`); within one kind the
ids are sequential and distinct (`text6b`); and every record surviving in
the per-provider formula map is appended to the merged output with no
deduplication. -/
theorem claim_C6_amended :
    (∀ (dp_id dp_name : Str) (fi : List (Str × FieldInfo))
        (dm : List (Str × DirectMapping)) (df : List (Str × Str))
        (out : List MappingRecord) (k v : Str), (k, v) ∈ df →
      formulaRecord dp_id dp_name k v ∈
        process_enhanced_mappings dp_id dp_name fi dm df out) ∧
    extract_dp_formulas text6b "DP1".data =
      [("DP1_FORM_0".data, "A".data), ("DP1_FORM_1".data, "B".data)] ∧
    extract_dp_formulas text6 "DP1".data = [("DP1_FORM_0".data, "B".data)] := by
  refine ⟨?_, by decide, by decide⟩
  intro dp_id dp_name fi dm df out k v hkv
  exact List.mem_append_right _ (List.mem_map.2 ⟨(k, v), hkv, rfl⟩)

theorem claim_C6_witness :
    (("K1".data, "F".data) ∈ [("K1".data, "F".data)]) ∧
    formulaRecord "DP1".data "DP1".data "K1".data "F".data ∈
      process_enhanced_mappings "DP1".data "DP1".data [] [] [("K1".data, "F".data)] [] :=
  ⟨by decide,
   claim_C6_amended.1 "DP1".data "DP1".data [] [] [("K1".data, "F".data)] []
     "K1".data "F".data (by decide)⟩

/-! ### Direct-mapping setdefault lemma and C8 -/

/-- A `setdefault` fold never changes the value stored under a key that
is already present. -/
theorem setdefault_fold_get (v0 : DirectMapping) :
    ∀ (ks : List Str) (acc : List (Str × DirectMapping)) (k : Str),
      dictMem acc k = true →
      dictGet (ks.foldl (fun dm m => dictSetdefault dm m v0) acc) k = dictGet acc k := by
  intro ks
  induction ks with
  | nil => intro acc k _; rfl
  | cons m rest ih =>
    intro acc k h
    show dictGet (rest.foldl _ (dictSetdefault acc m v0)) k = dictGet acc k
    by_cases hm : dictMem acc m = true
    · rw [show dictSetdefault acc m v0 = acc from by simp [dictSetdefault, hm]]
      exact ih acc k h
    · rw [show dictSetdefault acc m v0 = acc ++ [(m, v0)] from by
        simp [dictSetdefault, hm]]
      have hmem : dictMem (acc ++ [(m, v0)]) k = true := by
        unfold dictMem at h ⊢
        rw [List.any_append, h]
        rfl
      rw [ih (acc ++ [(m, v0)]) k hmem]
      unfold dictGet
      rw [List.find?_append]
      have hsome : (acc.find? (fun p => p.1 == k)).isSome := by
        unfold dictMem at h
        rw [List.any_eq_true] at h
        obtain ⟨x, hx, hpx⟩ := h
        exact List.find?_isSome.2 ⟨x, hx, hpx⟩
      obtain ⟨y, hy⟩ := Option.isSome_iff_exists.1 hsome
      rw [hy]
      rfl

/-- C8: end-to-end, the provider whose raw text is
`Total = 42, DP1.DO7` (no query-spec XML) contributes exactly one row,
with Technical ID `DP1.DO7`, Display Name `Total`, Sample Value `42`, and
Field Type `Data Field`; and in general the bare-token pass 2 never
overwrites a pass-1 entry for the same token. -/
theorem claim_C8 :
    providerRowsFromText "DP1".data "DP1".data text8 [] = [row8] ∧
    ∀ (text : Str) (k : Str), dictMem (direct_pass1 text) k = true →
      dictGet (extract_direct_mappings text) k = dictGet (direct_pass1 text) k := by
  refine ⟨by decide, ?_⟩
  intro text k h
  exact setdefault_fold_get ⟨[], []⟩ _ (direct_pass1 text) k h

theorem claim_C8_witness :
    dictMem (direct_pass1 text8) "DP1.DO7".data = true ∧
    dictGet (extract_direct_mappings text8) "DP1.DO7".data
      = dictGet (direct_pass1 text8) "DP1.DO7".data :=
  ⟨by decide, claim_C8.2 text8 "DP1.DO7".data (by decide)⟩

/-! ### Archive Locator lemmas and C2 -/

/-- `bytes.find` returning no index means the pattern occurs nowhere. -/
theorem findSub_none (pat : List Nat) (hp : pat ≠ []) :
    ∀ l, findSub pat l = none → ∀ j, List.take pat.length (List.drop j l) ≠ pat := by
  intro l
  induction l with
  | nil =>
    intro _ j
    rw [List.drop_nil, List.take_nil]
    exact fun h => hp h.symm
  | cons b rest ih =>
    intro hf j
    unfold findSub at hf
    by_cases htake : (List.take pat.length (b :: rest) == pat) = true
    · rw [if_pos htake] at hf
      exact absurd hf (by simp)
    · rw [if_neg (by simp [htake])] at hf
      have hrest : findSub pat rest = none := by
        cases hfr : findSub pat rest with
        | none => rfl
        | some i => rw [hfr] at hf; simp at hf
      cases j with
      | zero =>
        rw [List.drop_zero]
        exact fun h => htake (by rw [h, beq_self_eq_true])
      | succ j' =>
        rw [List.drop_succ_cons]
        exact ih hrest j'

/-- `bytes.find` returns the LOWEST index of an occurrence. -/
theorem findSub_some (pat : List Nat) :
    ∀ l i, findSub pat l = some i →
      List.take pat.length (List.drop i l) = pat ∧
      ∀ j < i, List.take pat.length (List.drop j l) ≠ pat := by
  intro l
  induction l with
  | nil => intro i h; simp [findSub] at h
  | cons b rest ih =>
    intro i h
    unfold findSub at h
    by_cases htake : (List.take pat.length (b :: rest) == pat) = true
    · rw [if_pos htake] at h
      have hi : i = 0 := by
        have := h
        simp at this
        omega
      subst hi
      refine ⟨by rw [List.drop_zero]; exact beq_iff_eq.1 htake, ?_⟩
      intro j hj
      exact absurd hj (Nat.not_lt_zero j)
    · rw [if_neg (by simp [htake])] at h
      cases hfr : findSub pat rest with
      | none => rw [hfr] at h; simp at h
      | some i' =>
        rw [hfr] at h
        simp at h
        obtain ⟨ht', hall⟩ := ih i' hfr
        subst h
        refine ⟨by rw [List.drop_succ_cons]; exact ht', ?_⟩
        intro j hj
        cases j with
        | zero =>
          rw [List.drop_zero]
          exact fun hh => htake (by rw [hh, beq_self_eq_true])
        | succ j' =>
          rw [List.drop_succ_cons]
          exact hall j' (by omega)

/-- C2: when the raw container bytes contain no `PK\x03\x04` signature,
the run for that file fails with the format error before anything is
parsed or produced; when a signature exists, the archive is opened on
exactly the byte suffix starting at the FIRST signature offset, all
prefix bytes ignored. -/
theorem claim_C2 (parseZip : List Nat → ZipArchive) (raw : List Nat) :
    ((∀ j, List.take zipSig.length (List.drop j raw) ≠ zipSig) →
      extractOutputs parseZip raw =
        Except.error "Not a valid .wid (no ZIP signature).".data) ∧
    ∀ i, findSub zipSig raw = some i →
      List.take zipSig.length (List.drop i raw) = zipSig ∧
      (∀ j < i, List.take zipSig.length (List.drop j raw) ≠ zipSig) ∧
      extractOutputs parseZip raw =
        Except.ok (buildTable (parseZip (raw.drop i)),
          sheetNames (buildTable (parseZip (raw.drop i)))) := by
  constructor
  · intro h
    have hn : findSub zipSig raw = none := by
      cases hf : findSub zipSig raw with
      | none => rfl
      | some i =>
        obtain ⟨hocc, _⟩ := findSub_some zipSig raw i hf
        exact absurd hocc (h i)
    unfold extractOutputs locateArchive
    rw [hn]
  · intro i hf
    obtain ⟨h1, h2⟩ := findSub_some zipSig raw i hf
    refine ⟨h1, h2, ?_⟩
    unfold extractOutputs locateArchive
    rw [hf]

theorem claim_C2_witness :
    ((∀ j, List.take zipSig.length (List.drop j ([0, 1] : List Nat)) ≠ zipSig) ∧
      extractOutputs (fun _ => []) [0, 1] =
        Except.error "Not a valid .wid (no ZIP signature).".data) ∧
    (List.take zipSig.length (List.drop 1 ([9, 80, 75, 3, 4] : List Nat)) = zipSig ∧
      (∀ j < 1, List.take zipSig.length
        (List.drop j ([9, 80, 75, 3, 4] : List Nat)) ≠ zipSig) ∧
      extractOutputs (fun _ => []) [9, 80, 75, 3, 4] =
        Except.ok (buildTable ((fun _ => ([] : ZipArchive)) (List.drop 1 [9, 80, 75, 3, 4])),
          sheetNames (buildTable ((fun _ => ([] : ZipArchive)) (List.drop 1 [9, 80, 75, 3, 4]))))) := by
  have hnone : ∀ j, List.take zipSig.length (List.drop j ([0, 1] : List Nat)) ≠ zipSig := by
    intro j h
    have hlen := congrArg List.length h
    simp only [List.length_take, List.length_drop, zipSig, List.length_cons,
      List.length_nil] at hlen
    omega
  exact ⟨⟨hnone, (claim_C2 (fun _ => []) [0, 1]).1 hnone⟩,
    (claim_C2 (fun _ => []) [9, 80, 75, 3, 4]).2 1 (by decide)⟩

/-! ### Decoder lemmas and C5 -/

/-- With `errors='ignore'`, UTF-8 decoding of pure-ASCII bytes is the
identity. -/
theorem utf8DecodeFuel_ascii (err : List Nat) :
    ∀ (fuel : Nat) (l : List Nat), l.length ≤ fuel → (∀ b ∈ l, b < 128) →
      utf8DecodeFuel err fuel l = l := by
  intro fuel
  induction fuel with
  | zero =>
    intro l hl _
    have : l = [] := List.eq_nil_of_length_eq_zero (by omega)
    rw [this]
    rfl
  | succ n ih =>
    intro l hl hb
    cases l with
    | nil => rfl
    | cons b rest =>
      have hb0 : b < 128 := hb b (List.mem_cons_self b rest)
      show (utf8Step err b rest).2
          ++ utf8DecodeFuel err n (rest.drop (utf8Step err b rest).1) = b :: rest
      rw [show utf8Step err b rest = (0, [b]) from by
        unfold utf8Step; rw [if_pos hb0]]
      rw [List.drop_zero]
      rw [ih rest (by simp at hl; omega) (fun x hx => hb x (List.mem_cons_of_mem _ hx))]
      rfl

/-- C5 counterexample: the code decodes with `errors='ignore'`, dropping
unmappable bytes, while the spec claims they are REPLACED; on the single
byte `0xFF` the code yields the empty string whereas replacement
semantics yields one U+FFFD character. -/
theorem claim_C5_counterexample :
    decodeChain [255] = [] ∧
    decodeChainReplaceSpec [255] = [Char.ofNat 65533] ∧
    decodeChain [255] ≠ decodeChainReplaceSpec [255] := by
  refine ⟨by decide, by decide, by decide⟩

/-- C5 (amended): the decoder tries UTF-8, UTF-16LE, Latin-1 in that fixed
order and keeps the first attempt that does not raise, with unmappable
bytes DROPPED (`errors='ignore'`), not replaced; since the UTF-8 attempt
can then never raise, its result is always the one returned and the
decoder never fails; on pure-ASCII input the decode is the identity. -/
theorem claim_C5_amended :
    (∀ raw : List Nat, decodeLoop raw = some ((utf8Decode [] raw).map Char.ofNat)) ∧
    (∀ raw : List Nat, (∀ b ∈ raw, b < 128) → decodeChain raw = raw.map Char.ofNat) := by
  constructor
  · intro raw
    rfl
  · intro raw h
    show (decodeLoop raw).getD [] = raw.map Char.ofNat
    rw [show decodeLoop raw = some ((utf8Decode [] raw).map Char.ofNat) from rfl]
    show (utf8Decode [] raw).map Char.ofNat = raw.map Char.ofNat
    rw [utf8Decode, utf8DecodeFuel_ascii [] raw.length raw (Nat.le_refl _) h]

theorem claim_C5_witness :
    (∀ b ∈ ([72, 105] : List Nat), b < 128) ∧
    decodeChain [72, 105] = [72, 105].map Char.ofNat :=
  ⟨by decide, claim_C5_amended.2 [72, 105] (by decide)⟩

/-! ### Character lemmas for the Column Normalizer -/

theorem char_toNat_ofNat_lt {n : Nat} (h : n < 55296) : (Char.ofNat n).toNat = n := by
  rw [Char.ofNat, dif_pos (Or.inl h)]
  rfl

theorem toLower_of_not_upper {c : Char} (h : ¬(c.toNat ≥ 65 ∧ c.toNat ≤ 90)) :
    c.toLower = c := by
  show (if c.toNat ≥ 65 ∧ c.toNat ≤ 90 then Char.ofNat (c.toNat + 32) else c) = c
  exact if_neg h

theorem toLower_toNat_of_upper {c : Char} (h1 : 65 ≤ c.toNat) (h2 : c.toNat ≤ 90) :
    c.toLower.toNat = c.toNat + 32 := by
  show (if c.toNat ≥ 65 ∧ c.toNat ≤ 90 then Char.ofNat (c.toNat + 32) else c).toNat = _
  rw [if_pos ⟨h1, h2⟩]
  exact char_toNat_ofNat_lt (by omega)

theorem keep_of_lower_or_digit {c : Char} (h : (isLowerChar c || isDigitChar c) = true) :
    (isAlphaChar c || isDigitChar c || isWsChar c) = true := by
  simp only [isAlphaChar, Bool.or_eq_true] at h ⊢
  tauto

theorem ws_false_of_lower_or_digit {c : Char} (h : (isLowerChar c || isDigitChar c) = true) :
    isWsChar c = false := by
  rw [Bool.eq_false_iff]
  intro hw
  simp only [Bool.or_eq_true, isLowerChar, isDigitChar, Bool.and_eq_true,
    decide_eq_true_eq] at h
  simp only [isWsChar, Bool.or_eq_true, decide_eq_true_eq] at hw
  omega

theorem ne_underscore_of_lower_or_digit {c : Char}
    (h : (isLowerChar c || isDigitChar c) = true) : c ≠ '_' := by
  intro he
  subst he
  exact absurd h (by decide)

theorem toLower_id_of_lower_or_digit {c : Char}
    (h : (isLowerChar c || isDigitChar c) = true) : c.toLower = c := by
  apply toLower_of_not_upper
  simp only [Bool.or_eq_true, isLowerChar, isDigitChar, Bool.and_eq_true,
    decide_eq_true_eq] at h
  omega

theorem toLower_lower_or_digit {c : Char} (h : (isAlphaChar c || isDigitChar c) = true) :
    (isLowerChar c.toLower || isDigitChar c.toLower) = true := by
  by_cases hu : 65 ≤ c.toNat ∧ c.toNat ≤ 90
  · have ht := toLower_toNat_of_upper hu.1 hu.2
    simp only [Bool.or_eq_true, isLowerChar, Bool.and_eq_true, decide_eq_true_eq]
    left
    omega
  · rw [toLower_of_not_upper hu]
    simp only [isAlphaChar, isUpperChar, isLowerChar, isDigitChar, Bool.or_eq_true,
      Bool.and_eq_true, decide_eq_true_eq] at h ⊢
    omega

/-! ### List lemmas for the Column Normalizer -/

theorem dropWhile_eq_self_of (p : α → Bool) (l : List α)
    (h : ∀ c ∈ l, p c = false) : l.dropWhile p = l := by
  cases l with
  | nil => rfl
  | cons a t =>
    rw [List.dropWhile_cons, if_neg]
    simp [h a (List.mem_cons_self a t)]

theorem map_eq_self_of (f : α → α) (l : List α) (h : ∀ a ∈ l, f a = a) : l.map f = l := by
  induction l with
  | nil => rfl
  | cons a t ih =>
    rw [List.map_cons, h a (List.mem_cons_self a t),
      ih (fun x hx => h x (List.mem_cons_of_mem a hx))]

theorem mem_collapseWsAux {c : Char} :
    ∀ (l : Str) (b : Bool), c ∈ collapseWsAux b l →
      (c ∈ l ∧ isWsChar c = false) ∨ c = '_' := by
  intro l
  induction l with
  | nil =>
    intro b h
    simp [collapseWsAux] at h
  | cons d rest ih =>
    intro b h
    unfold collapseWsAux at h
    by_cases hw : isWsChar d = true
    · rw [if_pos hw] at h
      cases b with
      | true =>
        rcases ih true (by simpa using h) with ⟨h1, h2⟩ | h3
        · exact Or.inl ⟨List.mem_cons_of_mem d h1, h2⟩
        · exact Or.inr h3
      | false =>
        rcases List.mem_cons.1 (by simpa using h) with rfl | h'
        · exact Or.inr rfl
        · rcases ih true h' with ⟨h1, h2⟩ | h3
          · exact Or.inl ⟨List.mem_cons_of_mem d h1, h2⟩
          · exact Or.inr h3
    · rw [if_neg hw] at h
      rcases List.mem_cons.1 h with rfl | h'
      · exact Or.inl ⟨List.mem_cons_self c rest, by simpa using hw⟩
      · rcases ih false h' with ⟨h1, h2⟩ | h3
        · exact Or.inl ⟨List.mem_cons_of_mem d h1, h2⟩
        · exact Or.inr h3

theorem collapseWsAux_id : ∀ (l : Str), (∀ c ∈ l, isWsChar c = false) →
    ∀ b, collapseWsAux b l = l := by
  intro l
  induction l with
  | nil => intro _ b; rfl
  | cons d rest ih =>
    intro h b
    unfold collapseWsAux
    rw [if_neg (by simp [h d (List.mem_cons_self d rest)])]
    rw [ih (fun x hx => h x (List.mem_cons_of_mem d hx)) false]

theorem mem_stripUscore {c : Char} {l : Str} (h : c ∈ stripUscore l) : c ∈ l := by
  unfold stripUscore at h
  rw [List.mem_reverse] at h
  have h1 := (List.dropWhile_sublist _).subset h
  rw [List.mem_reverse] at h1
  exact (List.dropWhile_sublist _).subset h1

theorem stripUscore_id (l : Str) (h : ∀ c ∈ l, c ≠ '_') : stripUscore l = l := by
  unfold stripUscore
  rw [dropWhile_eq_self_of _ l (fun c hc => by simp [h c hc]),
    dropWhile_eq_self_of _ _ (fun c hc => by simp [h c (List.mem_reverse.1 hc)]),
    List.reverse_reverse]

/-! ### Column Normalizer lemmas and C3 -/

/-- Every character of the normalized core is a lowercase letter, a
digit, or an underscore. -/
theorem mem_cleanCore {c : Char} {s : Str} (h : c ∈ cleanCore s) :
    (isLowerChar c || isDigitChar c) = true ∨ c = '_' := by
  unfold cleanCore at h
  obtain ⟨d, hd, rfl⟩ := List.mem_map.1 h
  have hd1 : d ∈ collapseWsAux false (cleanStage1 s) := mem_stripUscore hd
  rcases mem_collapseWsAux _ false hd1 with ⟨hd2, hws⟩ | rfl
  · have hd3 := (List.mem_filter.1 hd2).2
    rw [hws, Bool.or_false] at hd3
    exact Or.inl (toLower_lower_or_digit hd3)
  · right
    decide

/-- The normalizing pipeline is the identity on strings made of lowercase
letters and digits only. -/
theorem cleanCore_fixed {m : Str} (h : ∀ c ∈ m, (isLowerChar c || isDigitChar c) = true) :
    cleanCore m = m := by
  unfold cleanCore cleanStage1
  rw [List.filter_eq_self.2 (fun c hc => keep_of_lower_or_digit (h c hc))]
  rw [collapseWsAux_id m (fun c hc => ws_false_of_lower_or_digit (h c hc)) false]
  rw [stripUscore_id m (fun c hc => ne_underscore_of_lower_or_digit (h c hc))]
  exact map_eq_self_of _ m (fun c hc => toLower_id_of_lower_or_digit (h c hc))

/-- Case analysis of `clean_column_name` along its final guard. -/
theorem clean_eq_cases (s : Str) :
    (cleanCore s = [] ∧ clean_column_name s = []) ∨
    (∃ c cs, cleanCore s = c :: cs ∧ isAlphaChar c = true ∧
      clean_column_name s = c :: cs) ∨
    (∃ c cs, cleanCore s = c :: cs ∧ isAlphaChar c = false ∧
      clean_column_name s = 'f' :: '_' :: c :: cs) := by
  cases hc : cleanCore s with
  | nil =>
    refine Or.inl ⟨rfl, ?_⟩
    unfold clean_column_name
    rw [hc]
  | cons c cs =>
    by_cases ha : isAlphaChar c = true
    · refine Or.inr (Or.inl ⟨c, cs, rfl, ha, ?_⟩)
      unfold clean_column_name
      rw [hc]
      simp [ha]
    · refine Or.inr (Or.inr ⟨c, cs, rfl, by simpa using ha, ?_⟩)
      unfold clean_column_name
      rw [hc]
      simp [ha]

/-- C3 counterexample: the Column Normalizer is NOT idempotent — the
underscore introduced for the space in `"a b"` is stripped by the second
application, because `_` is not in the kept class `[A-Za-z0-9\s]`. -/
theorem claim_C3_counterexample :
    clean_column_name (clean_column_name "a b".data) ≠ clean_column_name "a b".data := by
  decide

/-- C3 (amended): the Column Normalizer satisfies the three concrete
cases, and it is idempotent exactly on the inputs whose normalized form
contains no underscore (re-applying it strips underscores, so a
normalized form with an underscore is a counterexample). -/
theorem claim_C3_amended :
    (∀ s : Str, '_' ∉ clean_column_name s →
      clean_column_name (clean_column_name s) = clean_column_name s) ∧
    clean_column_name "Sales $ Amount 2024".data = "sales_amount_2024".data ∧
    clean_column_name "123abc".data = "f_123abc".data ∧
    clean_column_name [] = [] := by
  refine ⟨?_, by decide, by decide, by decide⟩
  intro s h
  rcases clean_eq_cases s with ⟨_, he⟩ | ⟨c, cs, hc, ha, he⟩ | ⟨c, cs, _, _, he⟩
  · rw [he]
    rfl
  · rw [he] at h ⊢
    have hsub : ∀ d ∈ c :: cs, (isLowerChar d || isDigitChar d) = true := by
      intro d hd
      rw [← hc] at hd
      rcases mem_cleanCore hd with hk | rfl
      · exact hk
      · rw [hc] at hd
        exact absurd hd h
    have hfix : cleanCore (c :: cs) = c :: cs := cleanCore_fixed hsub
    unfold clean_column_name
    rw [hfix]
    simp [ha]
  · rw [he] at h
    exact absurd (by simp : '_' ∈ 'f' :: '_' :: c :: cs) h

theorem claim_C3_witness :
    '_' ∉ clean_column_name "abc".data ∧
    clean_column_name (clean_column_name "abc".data) = clean_column_name "abc".data :=
  ⟨by decide, claim_C3_amended.1 "abc".data (by decide)⟩

/-! ### Sort-order lemmas and C7 -/

theorem strLe_refl : ∀ s : Str, strLe s s = true := by
  intro s
  induction s with
  | nil => rfl
  | cons c t ih =>
    unfold strLe
    rw [if_neg (Nat.lt_irrefl c.toNat), if_neg (Nat.lt_irrefl c.toNat)]
    exact ih

theorem strLe_total : ∀ a b : Str, strLe a b = true ∨ strLe b a = true := by
  intro a
  induction a with
  | nil => intro b; exact Or.inl rfl
  | cons x xs ih =>
    intro b
    cases b with
    | nil => exact Or.inr rfl
    | cons y ys =>
      unfold strLe
      by_cases h1 : x.toNat < y.toNat
      · left
        rw [if_pos h1]
      · by_cases h2 : y.toNat < x.toNat
        · right
          rw [if_pos h2]
        · rw [if_neg h1, if_neg h2, if_neg h2, if_neg h1]
          exact ih ys

theorem strLe_trans : ∀ a b c : Str, strLe a b = true → strLe b c = true →
    strLe a c = true := by
  intro a
  induction a with
  | nil => intro b c _ _; rfl
  | cons x xs ih =>
    intro b c hab hbc
    cases b with
    | nil => exact absurd hab (by simp [strLe])
    | cons y ys =>
      cases c with
      | nil => exact absurd hbc (by simp [strLe])
      | cons z zs =>
        unfold strLe at hab hbc ⊢
        by_cases hxy : x.toNat < y.toNat
        · by_cases hyz : y.toNat < z.toNat
          · rw [if_pos (by omega : x.toNat < z.toNat)]
          · by_cases hzy : z.toNat < y.toNat
            · rw [if_neg hyz, if_pos hzy] at hbc
              exact absurd hbc (by simp)
            · rw [if_pos (by omega : x.toNat < z.toNat)]
        · by_cases hyx : y.toNat < x.toNat
          · rw [if_neg hxy, if_pos hyx] at hab
            exact absurd hab (by simp)
          · have hxy' : x.toNat = y.toNat := by omega
            by_cases hyz : y.toNat < z.toNat
            · rw [if_pos (by omega : x.toNat < z.toNat)]
            · by_cases hzy : z.toNat < y.toNat
              · rw [if_neg hyz, if_pos hzy] at hbc
                exact absurd hbc (by simp)
              · rw [if_neg hxy, if_neg hyx] at hab
                rw [if_neg hyz, if_neg hzy] at hbc
                rw [if_neg (by omega : ¬ x.toNat < z.toNat),
                  if_neg (by omega : ¬ z.toNat < x.toNat)]
                exact ih ys zs hab hbc

theorem strLe_antisymm : ∀ a b : Str, strLe a b = true → strLe b a = true → a = b := by
  intro a
  induction a with
  | nil =>
    intro b _ hba
    cases b with
    | nil => rfl
    | cons y ys => exact absurd hba (by simp [strLe])
  | cons x xs ih =>
    intro b hab hba
    cases b with
    | nil => exact absurd hab (by simp [strLe])
    | cons y ys =>
      unfold strLe at hab hba
      by_cases hxy : x.toNat < y.toNat
      · rw [if_neg (by omega : ¬ y.toNat < x.toNat), if_pos hxy] at hba
        exact absurd hba (by simp)
      · by_cases hyx : y.toNat < x.toNat
        · rw [if_neg hxy, if_pos hyx] at hab
          exact absurd hab (by simp)
        · rw [if_neg hxy, if_neg hyx] at hab
          rw [if_neg hyx, if_neg hxy] at hba
          have hn : x.toNat = y.toNat := by omega
          have hx : x = y := Char.ext (UInt32.toNat.inj hn)
          rw [hx, ih ys hab hba]

theorem keyLe_total : ∀ a b : MappingRecord, keyLe a b = true ∨ keyLe b a = true := by
  intro a b
  unfold keyLe
  by_cases h : a.dataProvider = b.dataProvider
  · rw [if_pos h, if_pos h.symm]
    exact strLe_total _ _
  · rw [if_neg h, if_neg (fun hh => h hh.symm)]
    exact strLe_total _ _

theorem keyLe_of_keyOf_eq {a b : MappingRecord} (h : keyOf a = keyOf b) :
    keyLe a b = true := by
  unfold keyOf at h
  have h1 : a.dataProvider = b.dataProvider := congrArg Prod.fst h
  have h2 : a.displayName = b.displayName := congrArg Prod.snd h
  unfold keyLe
  rw [if_pos h1, h2]
  exact strLe_refl _

theorem keyLe_trans : ∀ a b c : MappingRecord, keyLe a b = true → keyLe b c = true →
    keyLe a c = true := by
  intro a b c hab hbc
  unfold keyLe at hab hbc ⊢
  by_cases h1 : a.dataProvider = b.dataProvider
  · by_cases h2 : b.dataProvider = c.dataProvider
    · rw [if_pos h1] at hab
      rw [if_pos h2] at hbc
      rw [if_pos (h1.trans h2)]
      exact strLe_trans _ _ _ hab hbc
    · have h3 : ¬ a.dataProvider = c.dataProvider := fun hh => h2 (h1.symm.trans hh)
      rw [if_neg h2] at hbc
      rw [if_neg h3, h1]
      exact hbc
  · by_cases h2 : b.dataProvider = c.dataProvider
    · have h3 : ¬ a.dataProvider = c.dataProvider := fun hh => h1 (hh.trans h2.symm)
      rw [if_neg h1] at hab
      rw [if_neg h3, ← h2]
      exact hab
    · rw [if_neg h1] at hab
      rw [if_neg h2] at hbc
      by_cases h3 : a.dataProvider = c.dataProvider
      · exfalso
        apply h1
        apply strLe_antisymm
        · exact hab
        · rw [← h3] at hbc
          exact hbc
      · rw [if_neg h3]
        exact strLe_trans _ _ _ hab hbc

theorem mem_insertSorted {r y : MappingRecord} :
    ∀ l, y ∈ insertSorted r l → y = r ∨ y ∈ l := by
  intro l
  induction l with
  | nil =>
    intro h
    simp [insertSorted] at h
    exact Or.inl h
  | cons x xs ih =>
    intro h
    unfold insertSorted at h
    by_cases hk : keyLe r x = true
    · rw [if_pos hk] at h
      rcases List.mem_cons.1 h with rfl | h'
      · exact Or.inl rfl
      · exact Or.inr h'
    · rw [if_neg hk] at h
      rcases List.mem_cons.1 h with rfl | h'
      · exact Or.inr (List.mem_cons_self _ _)
      · rcases ih h' with rfl | h''
        · exact Or.inl rfl
        · exact Or.inr (List.mem_cons_of_mem _ h'')

theorem pairwise_insertSorted (r : MappingRecord) :
    ∀ l, List.Pairwise (fun a b => keyLe a b = true) l →
      List.Pairwise (fun a b => keyLe a b = true) (insertSorted r l) := by
  intro l
  induction l with
  | nil =>
    intro _
    simp [insertSorted]
  | cons x xs ih =>
    intro hp
    obtain ⟨hx, hxs⟩ := List.pairwise_cons.1 hp
    unfold insertSorted
    by_cases h : keyLe r x = true
    · rw [if_pos h]
      refine List.pairwise_cons.2 ⟨?_, hp⟩
      intro y hy
      rcases List.mem_cons.1 hy with rfl | hy'
      · exact h
      · exact keyLe_trans r x y h (hx y hy')
    · rw [if_neg h]
      have hxr : keyLe x r = true := by
        rcases keyLe_total r x with h' | h'
        · exact absurd h' h
        · exact h'
      refine List.pairwise_cons.2 ⟨?_, ih hxs⟩
      intro y hy
      rcases mem_insertSorted _ hy with rfl | hy'
      · exact hxr
      · exact hx y hy'

theorem sortMappings_pairwise :
    ∀ l, List.Pairwise (fun a b => keyLe a b = true) (sortMappings l) := by
  intro l
  induction l with
  | nil => exact List.Pairwise.nil
  | cons r rs ih => exact pairwise_insertSorted r (sortMappings rs) ih

theorem filter_insertSorted (r : MappingRecord) (k : Str × Str) :
    ∀ l, (insertSorted r l).filter (fun x => decide (keyOf x = k)) =
      if keyOf r = k then r :: l.filter (fun x => decide (keyOf x = k))
      else l.filter (fun x => decide (keyOf x = k)) := by
  intro l
  induction l with
  | nil =>
    by_cases hk : keyOf r = k
    · simp [insertSorted, hk]
    · simp [insertSorted, hk]
  | cons x xs ih =>
    unfold insertSorted
    by_cases h : keyLe r x = true
    · rw [if_pos h]
      by_cases hk : keyOf r = k
      · simp [List.filter_cons, hk]
      · simp [List.filter_cons, hk]
    · rw [if_neg h]
      by_cases hk : keyOf r = k
      · have hxk : ¬ keyOf x = k := by
          intro he
          exact h (keyLe_of_keyOf_eq (hk.trans he.symm))
        rw [if_pos hk]
        have e1 : (x :: insertSorted r xs).filter (fun y => decide (keyOf y = k))
            = (insertSorted r xs).filter (fun y => decide (keyOf y = k)) := by
          rw [List.filter_cons, if_neg (by simp [hxk])]
        have e2 : (x :: xs).filter (fun y => decide (keyOf y = k))
            = xs.filter (fun y => decide (keyOf y = k)) := by
          rw [List.filter_cons, if_neg (by simp [hxk])]
        rw [e1, e2, ih, if_pos hk]
      · rw [if_neg hk]
        rw [List.filter_cons, List.filter_cons]
        rw [ih, if_neg hk]

theorem sortMappings_filter (k : Str × Str) :
    ∀ l, (sortMappings l).filter (fun x => decide (keyOf x = k)) =
      l.filter (fun x => decide (keyOf x = k)) := by
  intro l
  induction l with
  | nil => rfl
  | cons r rs ih =>
    show (insertSorted r (sortMappings rs)).filter _ = _
    rw [filter_insertSorted]
    by_cases hk : keyOf r = k
    · rw [if_pos hk, ih, List.filter_cons]
      simp [hk]
    · rw [if_neg hk, ih, List.filter_cons]
      simp [hk]

/-- C7: the final table is sorted by (provider display label, display
name) — every row is `keyLe`-below every later row — and the sort is
stable: for every key, the rows carrying that key appear in the output in
exactly their original discovery order. -/
theorem claim_C7 (z : ZipArchive) (l : List MappingRecord) (k : Str × Str) :
    List.Pairwise (fun a b => keyLe a b = true) (buildTable z) ∧
    List.Pairwise (fun a b => keyLe a b = true) (sortMappings l) ∧
    (sortMappings l).filter (fun r => decide (keyOf r = k)) =
      l.filter (fun r => decide (keyOf r = k)) :=
  ⟨sortMappings_pairwise (buildMappings z), sortMappings_pairwise l,
    sortMappings_filter k l⟩

/-! ### Sheet views and C9 -/

/-- C9 (amended): for a non-empty table the spreadsheet always contains
the sheets "All Fields" and "Data Fields", but "Calculated Fields" is
present exactly when its subset (field type Calculated Field or Report
Variable) is non-empty. -/
theorem claim_C9_amended (table : List MappingRecord) (h : table ≠ []) :
    "All Fields".data ∈ sheetNames table ∧
    "Data Fields".data ∈ sheetNames table ∧
    ("Calculated Fields".data ∈ sheetNames table ↔ table.filter isCalcOrVar ≠ []) := by
  unfold sheetNames
  rw [if_neg h]
  by_cases hf : table.filter isCalcOrVar = []
  · rw [if_pos hf]
    refine ⟨by decide, by decide, ?_⟩
    constructor
    · intro hmem
      exact absurd hmem (by decide)
    · intro hne
      exact absurd hf hne
  · rw [if_neg hf]
    refine ⟨by decide, by decide, ?_⟩
    constructor
    · intro _
      exact hf
    · intro _
      decide

theorem claim_C9_witness :
    ([row8] ≠ ([] : List MappingRecord)) ∧
    ("All Fields".data ∈ sheetNames [row8] ∧
      "Data Fields".data ∈ sheetNames [row8] ∧
      ("Calculated Fields".data ∈ sheetNames [row8] ↔
        List.filter isCalcOrVar [row8] ≠ [])) :=
  ⟨by decide, claim_C9_amended [row8] (by decide)⟩

end WidSAP
